import Mathlib

/-!
Shallow embedding of the UDP layer in `src/udp.c` (functions `udp_checksum`,
`udp_in`, `udp_out`, `udp_open`, `udp_close`, `udp_send`) together with the
narrow collaborator interfaces it consumes (packet-buffer primitives, the
one's-complement checksum primitive, and the port-registry map).  Bytes are
`Nat` values (well-formed buffers hold values below 256); 16-bit loads and
stores are little-endian, matching the host the C code targets (its `swap16`
byte-swap is what produces big-endian wire fields on that host).
-/

set_option autoImplicit false

namespace Udp

/-- Predicate that every byte of a list is an actual byte value (below 256). -/
def bytes_wf (l : List Nat) : Prop := ∀ b ∈ l, b < 256

instance bytes_wf_dec (l : List Nat) : Decidable (bytes_wf l) :=
  List.decidableBAll _ l

/-- Packet buffer (`buf_t`): `data` is the visible byte region
`[buf->data, buf->data + buf->len)`, `headroom` is the memory in front of the
data pointer (in memory order, so its last element is adjacent to `data`),
and `tailcap` counts the free bytes after the data region. -/
structure buf_t where
  headroom : List Nat
  data : List Nat
  tailcap : Nat
deriving Repr, DecidableEq

/-- Modelled from the spec: the packet-buffer collaborator's
`buf_add_header(buf, n)` (`buf.c` is not under `src/`): move the data
pointer back `n` bytes, exposing the last `n` head-room bytes; fails when
the head-room is exhausted. -/
def buf_add_header (buf : buf_t) (n : Nat) : Option buf_t :=
  if n ≤ buf.headroom.length then
    some ⟨buf.headroom.take (buf.headroom.length - n),
          buf.headroom.drop (buf.headroom.length - n) ++ buf.data, buf.tailcap⟩
  else none

/-- Modelled from the spec: the packet-buffer collaborator's
`buf_remove_header(buf, n)`: move the data pointer forward `n` bytes; the
skipped bytes remain in memory (become head-room). -/
def buf_remove_header (buf : buf_t) (n : Nat) : Option buf_t :=
  if n ≤ buf.data.length then
    some ⟨buf.headroom ++ buf.data.take n, buf.data.drop n, buf.tailcap⟩
  else none

/-- Modelled from the spec: the packet-buffer collaborator's
`buf_add_padding(buf, n)`: extend the data region by `n` zero bytes at the
tail (spec 4.1: "appends exactly one zero padding byte"). -/
def buf_add_padding (buf : buf_t) (n : Nat) : Option buf_t :=
  if n ≤ buf.tailcap then
    some ⟨buf.headroom, buf.data ++ List.replicate n 0, buf.tailcap - n⟩
  else none

/-- Modelled from the spec: the packet-buffer collaborator's
`buf_remove_padding(buf, n)`: shrink the data region by `n` bytes at the
tail. -/
def buf_remove_padding (buf : buf_t) (n : Nat) : Option buf_t :=
  if n ≤ buf.data.length then
    some ⟨buf.headroom, buf.data.take (buf.data.length - n), buf.tailcap + n⟩
  else none

/-- The `swap16` byte-swap macro on a 16-bit value. -/
def swap16 (x : Nat) : Nat := x % 256 * 256 + x / 256 % 256

/-- Little-endian in-memory layout of a `uint16_t` value (the host is
little-endian). -/
def store16LE (v : Nat) : List Nat := [v % 256, v / 256 % 256]

/-- Little-endian `uint16_t` load at byte offset `off`. -/
def read16 (l : List Nat) (off : Nat) : Nat :=
  l.getD off 0 + 256 * l.getD (off + 1) 0

/-- Little-endian `uint16_t` store at byte offset `off`. -/
def write16 (l : List Nat) (off : Nat) (v : Nat) : List Nat :=
  (l.set off (v % 256)).set (off + 1) (v / 256 % 256)

/-- Sum of the 16-bit little-endian words of a byte region; a trailing odd
byte contributes its own value (as in the checksum primitive's tail case). -/
def sum32 : List Nat → Nat
  | [] => 0
  | [a] => a
  | a :: b :: rest => (a + 256 * b) + sum32 rest

/-- Carry-folding loop with explicit fuel; each pass strictly shrinks the
accumulator, so `fuel = s` always suffices. -/
def fold16F : Nat → Nat → Nat
  | 0, s => s
  | fuel + 1, s => if s < 65536 then s else fold16F fuel (s % 65536 + s / 65536)

/-- Fold the carries of a 32-bit accumulator back into 16 bits
(`sum = (sum & 0xffff) + (sum >> 16)` until it fits). -/
def fold16 (s : Nat) : Nat := fold16F s s

/-- Modelled from the spec: the one's-complement checksum primitive
`checksum16(data, len)` (`utils.c` is not under `src/`): sum the 16-bit
words byte region, fold the carries, and complement. -/
def checksum16 (l : List Nat) : Nat := 65535 - fold16 (sum32 l)

/-- Protocol identifier for UDP in the network layer (`NET_PROTOCOL_UDP`). -/
def NET_PROTOCOL_UDP : Nat := 17

/-- Modelled from the spec: the unreachable-notification collaborator's
"port unreachable" reason-code tag (`ICMP_CODE_PORT_UNREACH`, from
`icmp.h`, not under `src/`); the claims compare against the tag itself, so
its numeric value is immaterial. -/
def ICMP_CODE_PORT_UNREACH : Nat := 3

/-- The 12-byte UDP pseudo-header `udp_peso_hdr_t` as filled by
`udp_checksum`: source IP, destination IP, zero placeholder, UDP protocol
id, and the UDP length stored via `swap16` (hence big-endian on the wire). -/
def udp_peso_hdr (src_ip dst_ip : List Nat) (total_len : Nat) : List Nat :=
  src_ip.take 4 ++ dst_ip.take 4 ++ [0, NET_PROTOCOL_UDP] ++
    store16LE (swap16 total_len)

/-- `udp_checksum(buf, src_ip, dst_ip)` from `src/udp.c`: grow the buffer by
the IP header size, save those bytes, shrink to pseudo-header position,
synthesize the pseudo-header, pad to even length if needed, run
`checksum16`, then restore the saved bytes and remove the padding.  Returns
the checksum together with the buffer state on return; `none` models a
failing buffer primitive (insufficient head-room or tail capacity). -/
def udp_checksum (buf : buf_t) (src_ip dst_ip : List Nat) :
    Option (Nat × buf_t) :=
  match buf_add_header buf 20 with
  | none => none
  | some b1 =>
    let ip_hdr := b1.data.take 20
    match buf_remove_header b1 8 with
    | none => none
    | some b2 =>
      let peso := udp_peso_hdr src_ip dst_ip (b2.data.length - 12)
      let b3 : buf_t := { b2 with data := peso ++ b2.data.drop 12 }
      match (if b3.data.length % 2 = 1 then buf_add_padding b3 1 else some b3) with
      | none => none
      | some b4 =>
        let cksum := checksum16 b4.data
        match buf_add_header b4 8 with
        | none => none
        | some b5 =>
          let b6 : buf_t := { b5 with data := ip_hdr ++ b5.data.drop 20 }
          match buf_remove_header b6 20 with
          | none => none
          | some b7 =>
            match (if b3.data.length % 2 = 1 then buf_remove_padding b7 1
                   else some b7) with
            | none => none
            | some b8 => some (cksum, b8)

/-- Modelled from the spec: the port-registry map collaborator's `map_set`
(`map.c` is not under `src/`): installs the entry, overwriting the previous
handler when the port is already present (last write wins); storage never
fails to grow in this model. -/
def map_set : List (Nat × Nat) → Nat → Nat → List (Nat × Nat)
  | [], k, v => [(k, v)]
  | (k', v') :: rest, k, v =>
    if k' = k then (k, v) :: rest else (k', v') :: map_set rest k v

/-- Modelled from the spec: the port-registry map collaborator's `map_get`:
read-only lookup of the handler registered for a port. -/
def map_get : List (Nat × Nat) → Nat → Option Nat
  | [], _ => none
  | (k', v) :: rest, k => if k' = k then some v else map_get rest k

/-- Modelled from the spec: the port-registry map collaborator's
`map_delete`: removes the entry if present; a no-op when absent. -/
def map_delete : List (Nat × Nat) → Nat → List (Nat × Nat)
  | [], _ => []
  | (k', v) :: rest, k => if k' = k then rest else (k', v) :: map_delete rest k

/-- `udp_open(port, handler)`: register a handler (an opaque capability,
modelled as a `Nat` identifier) for a port; returns the status and the new
table state. -/
def udp_open (table : List (Nat × Nat)) (port : Nat) (handler : Nat) :
    Int × List (Nat × Nat) :=
  (0, map_set table port handler)

/-- `udp_close(port)`: unregister the handler for a port. -/
def udp_close (table : List (Nat × Nat)) (port : Nat) : List (Nat × Nat) :=
  map_delete table port

/-- A recorded handler invocation `(*handler)(data, len, src_ip, src_port)`. -/
structure HandlerCall where
  handler : Nat
  data : List Nat
  len : Nat
  src_ip : List Nat
  src_port : Nat
deriving Repr, DecidableEq

/-- A recorded `icmp_unreachable(buf, src_ip, code)` request. -/
structure IcmpCall where
  buf : buf_t
  src_ip : List Nat
  code : Nat
deriving Repr, DecidableEq

/-- Observable outcome of `udp_in`: the handler invocation (if any), the
unreachable notification request (if any), and the buffer state on return. -/
structure UdpInOut where
  handler_call : Option HandlerCall
  icmp_call : Option IcmpCall
  buf : buf_t
deriving Repr, DecidableEq

/-- A recorded `ip_out(buf, ip, protocol)` hand-off to the network layer. -/
structure IpOutCall where
  buf : buf_t
  ip : List Nat
  protocol : Nat
deriving Repr, DecidableEq

/-- `udp_in(buf, src_ip)` from `src/udp.c` against a registry `table` on a
stack whose interface IP is `net_if_ip`: drop short buffers; save the
checksum field, zero it, recompute via `udp_checksum` and drop on mismatch;
otherwise restore the field, look up the destination port (byte-swapped for
the lookup key), and either request a port-unreachable notification (after
re-adding the IP header) or strip the UDP header and invoke the handler
with `(payload, length, src_ip, raw src-port field)`. -/
def udp_in (table : List (Nat × Nat)) (net_if_ip : List Nat) (buf : buf_t)
    (src_ip : List Nat) : Option UdpInOut :=
  if buf.data.length < 8 then some ⟨none, none, buf⟩
  else
    let saved := read16 buf.data 6
    let buf1 : buf_t := { buf with data := write16 buf.data 6 0 }
    match udp_checksum buf1 src_ip net_if_ip with
    | none => none
    | some (ck, buf2) =>
      if saved ≠ ck then some ⟨none, none, buf2⟩
      else
        let buf3 : buf_t := { buf2 with data := write16 buf2.data 6 saved }
        match map_get table (swap16 (read16 buf3.data 2)) with
        | none =>
          match buf_add_header buf3 20 with
          | none => none
          | some buf4 =>
            some ⟨none, some ⟨buf4, src_ip, ICMP_CODE_PORT_UNREACH⟩, buf4⟩
        | some handler =>
          match buf_remove_header buf3 8 with
          | none => none
          | some buf5 =>
            some ⟨some ⟨handler, buf5.data, buf5.data.length, src_ip,
                        read16 buf3.data 0⟩, none, buf5⟩

/-- The 8-byte in-memory layout of a `udp_hdr_t` as constructed by
`udp_out`: ports and total length stored via `swap16` (hence big-endian on
the wire), the checksum value stored directly. -/
def udp_hdr_bytes (sp dp len ck : Nat) : List Nat :=
  store16LE (swap16 sp) ++ store16LE (swap16 dp) ++ store16LE (swap16 len) ++
    store16LE ck

/-- `udp_out(buf, src_port, dst_ip, dst_port)` from `src/udp.c` on a stack
whose interface IP is `net_if_ip`: prepend the 8-byte UDP header (ports and
total length stored via `swap16`, checksum zeroed), compute the checksum
via `udp_checksum` with the interface IP as source, rewrite the header with
the checksum filled in, and hand the buffer to `ip_out` tagged with the
destination IP and the UDP protocol id. -/
def udp_out (buf : buf_t) (src_port : Nat) (dst_ip : List Nat)
    (dst_port : Nat) (net_if_ip : List Nat) : Option IpOutCall :=
  match buf_add_header buf 8 with
  | none => none
  | some b1 =>
    let b2 : buf_t :=
      { b1 with data := udp_hdr_bytes src_port dst_port b1.data.length 0 ++
                        b1.data.drop 8 }
    match udp_checksum b2 net_if_ip dst_ip with
    | none => none
    | some (ck, b3) =>
      let b4 : buf_t :=
        { b3 with data := udp_hdr_bytes src_port dst_port b1.data.length ck ++
                          b3.data.drop 8 }
      some ⟨b4, dst_ip, NET_PROTOCOL_UDP⟩

/-- `udp_send(data, len, src_port, dst_ip, dst_port)`: initialize the
transmit buffer with the payload (the pre-existing head-room memory and
tail capacity of `txbuf` are parameters) and run `udp_out`. -/
def udp_send (mem_headroom : List Nat) (tailcap : Nat) (data : List Nat)
    (src_port : Nat) (dst_ip : List Nat) (dst_port : Nat)
    (net_if_ip : List Nat) : Option IpOutCall :=
  udp_out ⟨mem_headroom, data, tailcap⟩ src_port dst_ip dst_port net_if_ip

/-- The padded byte region that `udp_checksum` actually feeds to
`checksum16`: one zero byte is appended when the length is odd. -/
def padEven (l : List Nat) : List Nat :=
  if l.length % 2 = 1 then l ++ [0] else l

/-- Flip bit `k` of the byte at index `i` of a byte region. -/
def flipBit (l : List Nat) (i k : Nat) : List Nat :=
  l.set i (l.getD i 0 ^^^ 2 ^ k)

theorem fold16F_le (fuel : Nat) : ∀ s, s ≤ fuel → fold16F fuel s ≤ 65535 := by
  induction fuel with
  | zero =>
    intro s hs
    simp only [fold16F]
    omega
  | succ n ih =>
    intro s hs
    simp only [fold16F]
    split
    · omega
    · exact ih _ (by omega)

theorem fold16F_mod (fuel : Nat) :
    ∀ s, s ≤ fuel → fold16F fuel s % 65535 = s % 65535 := by
  induction fuel with
  | zero =>
    intro s hs
    simp only [fold16F]
  | succ n ih =>
    intro s hs
    simp only [fold16F]
    split
    · rfl
    · have h := ih (s % 65536 + s / 65536) (by omega)
      omega

theorem fold16_le (s : Nat) : fold16 s ≤ 65535 :=
  fold16F_le s s (Nat.le_refl s)

theorem fold16_mod (s : Nat) : fold16 s % 65535 = s % 65535 :=
  fold16F_mod s s (Nat.le_refl s)

theorem checksum16_le (l : List Nat) : checksum16 l ≤ 65535 := by
  have := fold16_le (sum32 l)
  simp only [checksum16]
  omega

/-- Two regions whose word sums differ by a positive amount below `65535`
have different one's-complement checksums. -/
theorem checksum16_ne_of_sum_lt (l l' : List Nat) (d : Nat) (hd : 0 < d)
    (hd' : d < 65535) (hsum : sum32 l' = sum32 l + d) :
    checksum16 l' ≠ checksum16 l := by
  intro h
  have h1 := fold16_le (sum32 l)
  have h2 := fold16_le (sum32 l')
  have h3 := fold16_mod (sum32 l)
  have h4 := fold16_mod (sum32 l')
  simp only [checksum16] at h
  omega

theorem buf_add_header_eq (H0 H1 D : List Nat) (T n : Nat)
    (h : H1.length = n) :
    buf_add_header ⟨H0 ++ H1, D, T⟩ n = some ⟨H0, H1 ++ D, T⟩ := by
  have hl : (H0 ++ H1).length = H0.length + n := by simp [h]
  simp only [buf_add_header, hl]
  rw [if_pos (by omega)]
  simp only [Nat.add_sub_cancel]
  rw [List.take_left, List.drop_left]

theorem buf_remove_header_eq (H D0 D : List Nat) (T n : Nat)
    (h : D0.length = n) :
    buf_remove_header ⟨H, D0 ++ D, T⟩ n = some ⟨H ++ D0, D, T⟩ := by
  have hl : (D0 ++ D).length = n + D.length := by simp [h]
  simp only [buf_remove_header, hl]
  rw [if_pos (by omega)]
  rw [List.take_left' h, List.drop_left' h]

theorem buf_add_padding_one (H D : List Nat) (T : Nat) (h : 1 ≤ T) :
    buf_add_padding ⟨H, D, T⟩ 1 = some ⟨H, D ++ [0], T - 1⟩ := by
  simp only [buf_add_padding]
  rw [if_pos h]
  rfl

theorem buf_remove_padding_one (H D : List Nat) (T : Nat) :
    buf_remove_padding ⟨H, D ++ [0], T⟩ 1 = some ⟨H, D, T + 1⟩ := by
  have hl : (D ++ [0]).length = D.length + 1 := by simp
  simp only [buf_remove_padding, hl]
  rw [if_pos (by omega)]
  simp only [Nat.add_sub_cancel]
  rw [List.take_left]

/-- Value and frame behaviour of `udp_checksum` on a buffer with 20 bytes of
head-room (split off as `H1`): it returns the one's-complement checksum of
the pseudo-header followed by the data (padded to even length), and restores
the buffer exactly. -/
theorem udp_checksum_spec (H0 H1 D : List Nat) (T : Nat) (sip dip : List Nat)
    (h1 : H1.length = 20) (hsip : sip.length = 4) (hdip : dip.length = 4)
    (hT : D.length % 2 = 1 → 1 ≤ T) :
    udp_checksum ⟨H0 ++ H1, D, T⟩ sip dip =
      some (checksum16 (padEven (udp_peso_hdr sip dip D.length ++ D)),
            ⟨H0 ++ H1, D, T⟩) := by
  have hpeso : (udp_peso_hdr sip dip D.length).length = 12 := by
    simp [udp_peso_hdr, store16LE, hsip, hdip]
  have htake8 : (H1.take 8).length = 8 := by simp [h1]
  have hdrop8 : (H1.drop 8).length = 12 := by simp [h1]
  have e1 : buf_add_header ⟨H0 ++ H1, D, T⟩ 20 = some ⟨H0, H1 ++ D, T⟩ :=
    buf_add_header_eq H0 H1 D T 20 h1
  have e2 : (H1 ++ D).take 20 = H1 := List.take_left' h1
  have e3 : buf_remove_header ⟨H0, H1 ++ D, T⟩ 8 =
      some ⟨H0 ++ H1.take 8, H1.drop 8 ++ D, T⟩ := by
    have := buf_remove_header_eq H0 (H1.take 8) (H1.drop 8 ++ D) T 8 htake8
    rwa [← List.append_assoc, List.take_append_drop] at this
  have e4 : (H1.drop 8 ++ D).drop 12 = D := List.drop_left' hdrop8
  have e5 : (H1.drop 8 ++ D).length - 12 = D.length := by
    simp [hdrop8]
  rw [udp_checksum, e1]
  simp only [e2, e3, e4, e5]
  set peso := udp_peso_hdr sip dip D.length with hpeso_def
  have edrop12 : List.drop 12 (peso ++ D) = D := List.drop_left' hpeso
  rcases Nat.even_or_odd D.length with hpar | hpar
  · -- even data length: no padding
    have hmod : D.length % 2 = 0 := Nat.even_iff.mp hpar
    have hc : ¬ ((peso ++ D).length % 2 = 1) := by
      simp only [List.length_append, hpeso]
      omega
    have e6 : buf_add_header ⟨H0 ++ H1.take 8, peso ++ D, T⟩ 8 =
        some ⟨H0, H1.take 8 ++ (peso ++ D), T⟩ :=
      buf_add_header_eq H0 (H1.take 8) (peso ++ D) T 8 htake8
    have e7 : List.drop 20 (H1.take 8 ++ (peso ++ D)) = D := by
      simp [List.drop_append_eq_append_drop, htake8, edrop12,
        List.drop_of_length_le]
    have e8 : buf_remove_header ⟨H0, H1 ++ D, T⟩ 20 = some ⟨H0 ++ H1, D, T⟩ :=
      buf_remove_header_eq H0 H1 D T 20 h1
    simp only [if_neg hc, e6, e7, e8, padEven]
  · -- odd data length: one padding byte
    have hmod : D.length % 2 = 1 := Nat.odd_iff.mp hpar
    have hc : (peso ++ D).length % 2 = 1 := by
      simp only [List.length_append, hpeso]
      omega
    have e6 : buf_add_padding ⟨H0 ++ H1.take 8, peso ++ D, T⟩ 1 =
        some ⟨H0 ++ H1.take 8, (peso ++ D) ++ [0], T - 1⟩ :=
      buf_add_padding_one _ _ T (hT hmod)
    have e7 : buf_add_header ⟨H0 ++ H1.take 8, (peso ++ D) ++ [0], T - 1⟩ 8 =
        some ⟨H0, H1.take 8 ++ ((peso ++ D) ++ [0]), T - 1⟩ :=
      buf_add_header_eq H0 (H1.take 8) ((peso ++ D) ++ [0]) (T - 1) 8 htake8
    have e8 : List.drop 20 (H1.take 8 ++ ((peso ++ D) ++ [0])) = D ++ [0] := by
      have h12 : List.drop 12 (peso ++ (D ++ [0])) = D ++ [0] :=
        List.drop_left' hpeso
      rw [List.append_assoc] at *
      simp [List.drop_append_eq_append_drop, htake8, h12,
        List.drop_of_length_le]
    have e9 : buf_remove_header ⟨H0, H1 ++ (D ++ [0]), T - 1⟩ 20 =
        some ⟨H0 ++ H1, D ++ [0], T - 1⟩ :=
      buf_remove_header_eq H0 H1 (D ++ [0]) (T - 1) 20 h1
    have e10 : buf_remove_padding ⟨H0 ++ H1, D ++ [0], T - 1⟩ 1 =
        some ⟨H0 ++ H1, D, T - 1 + 1⟩ := buf_remove_padding_one _ _ _
    have hT1 : T - 1 + 1 = T := by
      have := hT hmod
      omega
    simp only [if_pos hc, e6, e7, e8, e9, e10, hT1, padEven]


theorem length_write16 (l : List Nat) (off v : Nat) :
    (write16 l off v).length = l.length := by
  simp [write16]

theorem set_getD_self (l : List Nat) (i : Nat) (h : i < l.length) :
    l.set i (l.getD i 0) = l := by
  induction l generalizing i with
  | nil => simp at h
  | cons a t ih =>
    cases i with
    | zero => simp
    | succ j =>
      simp only [List.getD_cons_succ, List.set_cons_succ, List.cons.injEq,
        true_and]
      exact ih j (by simpa using h)

theorem getD_lt_of_wf (l : List Nat) (i : Nat) (hwf : bytes_wf l)
    (h : i < l.length) : l.getD i 0 < 256 := by
  rw [List.getD_eq_getElem l 0 h]
  exact hwf _ (l.getElem_mem h)

/-- Writing back the saved 16-bit field restores the original bytes. -/
theorem write16_restore (D : List Nat) (off : Nat) (hwf : bytes_wf D)
    (hoff : off + 1 < D.length) :
    write16 (write16 D off 0) off (read16 D off) = D := by
  have ha : D.getD off 0 < 256 := getD_lt_of_wf D off hwf (by omega)
  have hb : D.getD (off + 1) 0 < 256 := getD_lt_of_wf D (off + 1) hwf hoff
  have hlo : read16 D off % 256 = D.getD off 0 := by
    simp only [read16]
    omega
  have hhi : read16 D off / 256 % 256 = D.getD (off + 1) 0 := by
    simp only [read16]
    rw [Nat.add_mul_div_left _ _ (by norm_num : 0 < 256)]
    omega
  simp only [write16, Nat.zero_mod, Nat.zero_div, hlo, hhi]
  rw [List.set_comm _ _ _ (by omega : off ≠ off + 1), List.set_set,
    List.set_comm _ _ _ (by omega : off + 1 ≠ off), List.set_set,
    set_getD_self D off (by omega), set_getD_self D (off + 1) hoff]

/-- Checksum-mismatch path of `udp_in`: silent drop, checksum field left
zeroed. -/
theorem udp_in_drop_checksum (table : List (Nat × Nat))
    (ifip sip H0 H1 D : List Nat) (T : Nat) (h1 : H1.length = 20)
    (hsip : sip.length = 4) (hifip : ifip.length = 4) (hD : 8 ≤ D.length)
    (hT : D.length % 2 = 1 → 1 ≤ T)
    (hne : read16 D 6 ≠
      checksum16 (padEven (udp_peso_hdr sip ifip D.length ++ write16 D 6 0))) :
    udp_in table ifip ⟨H0 ++ H1, D, T⟩ sip =
      some ⟨none, none, ⟨H0 ++ H1, write16 D 6 0, T⟩⟩ := by
  have hW := udp_checksum_spec H0 H1 (write16 D 6 0) T sip ifip h1 hsip hifip
    (by rw [length_write16]; exact hT)
  rw [length_write16] at hW
  rw [udp_in]
  rw [if_neg (by dsimp only; omega)]
  simp only [hW, if_pos hne]

/-- Unreachable-port path of `udp_in`: checksum matches, no handler is
registered; the IP header is re-added and one unreachable notification is
requested. -/
theorem udp_in_unreachable (table : List (Nat × Nat))
    (ifip sip H0 H1 D : List Nat) (T : Nat) (h1 : H1.length = 20)
    (hsip : sip.length = 4) (hifip : ifip.length = 4) (hD : 8 ≤ D.length)
    (hT : D.length % 2 = 1 → 1 ≤ T) (hwf : bytes_wf D)
    (heq : read16 D 6 =
      checksum16 (padEven (udp_peso_hdr sip ifip D.length ++ write16 D 6 0)))
    (hlookup : map_get table (swap16 (read16 D 2)) = none) :
    udp_in table ifip ⟨H0 ++ H1, D, T⟩ sip =
      some ⟨none, some ⟨⟨H0, H1 ++ D, T⟩, sip, ICMP_CODE_PORT_UNREACH⟩,
            ⟨H0, H1 ++ D, T⟩⟩ := by
  have hW := udp_checksum_spec H0 H1 (write16 D 6 0) T sip ifip h1 hsip hifip
    (by rw [length_write16]; exact hT)
  rw [length_write16] at hW
  have hrestore : write16 (write16 D 6 0) 6 (read16 D 6) = D :=
    write16_restore D 6 hwf (by omega)
  rw [udp_in]
  rw [if_neg (by dsimp only; omega)]
  simp only [hW, if_neg (show ¬ read16 D 6 ≠ _ from fun h => h heq), hrestore,
    hlookup, buf_add_header_eq H0 H1 D T 20 h1]

/-- Delivery path of `udp_in`: checksum matches and a handler is registered;
the UDP header is stripped and the handler invoked. -/
theorem udp_in_deliver (table : List (Nat × Nat))
    (ifip sip H0 H1 D : List Nat) (T : Nat) (handler : Nat)
    (h1 : H1.length = 20) (hsip : sip.length = 4) (hifip : ifip.length = 4)
    (hD : 8 ≤ D.length) (hT : D.length % 2 = 1 → 1 ≤ T) (hwf : bytes_wf D)
    (heq : read16 D 6 =
      checksum16 (padEven (udp_peso_hdr sip ifip D.length ++ write16 D 6 0)))
    (hlookup : map_get table (swap16 (read16 D 2)) = some handler) :
    udp_in table ifip ⟨H0 ++ H1, D, T⟩ sip =
      some ⟨some ⟨handler, D.drop 8, (D.drop 8).length, sip, read16 D 0⟩, none,
            ⟨(H0 ++ H1) ++ D.take 8, D.drop 8, T⟩⟩ := by
  have hW := udp_checksum_spec H0 H1 (write16 D 6 0) T sip ifip h1 hsip hifip
    (by rw [length_write16]; exact hT)
  rw [length_write16] at hW
  have hrestore : write16 (write16 D 6 0) 6 (read16 D 6) = D :=
    write16_restore D 6 hwf (by omega)
  have hsplit : buf_remove_header ⟨H0 ++ H1, D, T⟩ 8 =
      some ⟨(H0 ++ H1) ++ D.take 8, D.drop 8, T⟩ := by
    have := buf_remove_header_eq (H0 ++ H1) (D.take 8) (D.drop 8) T 8
      (by simp [List.length_take]; omega)
    rwa [List.take_append_drop] at this
  rw [udp_in]
  rw [if_neg (by dsimp only; omega)]
  simp only [hW, if_neg (show ¬ read16 D 6 ≠ _ from fun h => h heq), hrestore,
    hlookup, hsplit]

theorem length_udp_hdr_bytes (sp dp len ck : Nat) :
    (udp_hdr_bytes sp dp len ck).length = 8 := by
  simp [udp_hdr_bytes, store16LE]

/-- Big-endian reading of a `swap16`-stored field. -/
theorem store16LE_swap16 (v : Nat) :
    store16LE (swap16 v) = [v / 256 % 256, v % 256] := by
  obtain ⟨a, b, ha, hb, hv1, hv2⟩ :
      ∃ a b, a < 256 ∧ b < 256 ∧ v % 256 = a ∧ v / 256 % 256 = b :=
    ⟨_, _, Nat.mod_lt _ (by norm_num), Nat.mod_lt _ (by norm_num), rfl, rfl⟩
  simp only [store16LE, swap16, hv1, hv2, List.cons.injEq, and_true]
  constructor
  · omega
  · rw [Nat.mul_comm a 256, Nat.mul_add_div (by norm_num), Nat.div_eq_of_lt hb,
      Nat.add_zero, Nat.mod_eq_of_lt ha]

/-- Value of `udp_out` on a buffer with 28 bytes of head-room (split off as
`H1 ++ H2`): the buffer handed to `ip_out` carries the UDP header with the
checksum of pseudo-header + zero-checksum header + payload, followed by the
unchanged payload, tagged with the destination IP and protocol 17. -/
theorem udp_out_spec (H0 H1 H2 D : List Nat) (T : Nat) (sp dp : Nat)
    (dip ifip : List Nat) (h1 : H1.length = 20) (h2 : H2.length = 8)
    (hdip : dip.length = 4) (hifip : ifip.length = 4)
    (hT : D.length % 2 = 1 → 1 ≤ T) :
    udp_out ⟨H0 ++ H1 ++ H2, D, T⟩ sp dip dp ifip =
      some ⟨⟨H0 ++ H1,
             udp_hdr_bytes sp dp (D.length + 8)
               (checksum16 (padEven (udp_peso_hdr ifip dip (D.length + 8) ++
                  (udp_hdr_bytes sp dp (D.length + 8) 0 ++ D)))) ++ D,
             T⟩, dip, NET_PROTOCOL_UDP⟩ := by
  have hb1 : buf_add_header ⟨H0 ++ H1 ++ H2, D, T⟩ 8 =
      some ⟨H0 ++ H1, H2 ++ D, T⟩ :=
    buf_add_header_eq (H0 ++ H1) H2 D T 8 h2
  have hlen : (H2 ++ D).length = D.length + 8 := by
    simp [h2]
    omega
  have hdrop : (H2 ++ D).drop 8 = D := List.drop_left' h2
  have hhdr0 : (udp_hdr_bytes sp dp (D.length + 8) 0).length = 8 :=
    length_udp_hdr_bytes sp dp (D.length + 8) 0
  have hdrop2 : (udp_hdr_bytes sp dp (D.length + 8) 0 ++ D).drop 8 = D :=
    List.drop_left' hhdr0
  have hck := udp_checksum_spec H0 H1
    (udp_hdr_bytes sp dp (D.length + 8) 0 ++ D) T ifip dip h1 hifip hdip
    (by
      simp only [List.length_append, hhdr0]
      intro h
      exact hT (by omega))
  rw [show (udp_hdr_bytes sp dp (D.length + 8) 0 ++ D).length = D.length + 8
      from by simp only [List.length_append, hhdr0]; omega] at hck
  rw [udp_out]
  simp only [hb1, hlen, hdrop, hck, hdrop2]

/-- Weight of a byte position in the little-endian 16-bit word sum. -/
def byteWeight (i : Nat) : Nat := if i % 2 = 0 then 1 else 256

theorem sum32_set (l : List Nat) (i v : Nat) (h : i < l.length) :
    sum32 (l.set i v) + l.getD i 0 * byteWeight i =
      sum32 l + v * byteWeight i := by
  induction l using sum32.induct generalizing i with
  | case1 => simp at h
  | case2 a =>
    have hi : i = 0 := by simp at h; omega
    subst hi
    simp [sum32, byteWeight]
    omega
  | case3 a b rest ih =>
    match i with
    | 0 => simp [sum32, byteWeight]; omega
    | 1 => simp [sum32, byteWeight]; omega
    | n + 2 =>
      have hn : n < rest.length := by simp at h; omega
      have hw : byteWeight (n + 2) = byteWeight n := by
        simp only [byteWeight, Nat.add_mod_right]
      simp only [List.set_cons_succ, sum32, List.getD_cons_succ, hw]
      have := ih n hn
      omega

set_option maxRecDepth 100000 in
theorem xor_byte_cases : ∀ b < 256, ∀ k < 8,
    b ^^^ 2 ^ k < 256 ∧ ((b ^^^ 2 ^ k) + 2 ^ k = b ∨ b ^^^ 2 ^ k = b + 2 ^ k) := by
  decide

theorem byteWeight_bounds (i : Nat) : 1 ≤ byteWeight i ∧ byteWeight i ≤ 256 := by
  simp only [byteWeight]
  split <;> omega

/-- Flipping any single bit of any byte of a region changes its
one's-complement checksum. -/
theorem checksum16_flip_ne (l : List Nat) (i k : Nat) (hi : i < l.length)
    (hk : k < 8) (hb : l.getD i 0 < 256) :
    checksum16 (flipBit l i k) ≠ checksum16 l := by
  obtain ⟨hlt, hcase⟩ := xor_byte_cases (l.getD i 0) hb k hk
  have hsum := sum32_set l i (l.getD i 0 ^^^ 2 ^ k) hi
  have hw := byteWeight_bounds i
  have h2k : 2 ^ k ≤ 128 := by
    calc 2 ^ k ≤ 2 ^ 7 := Nat.pow_le_pow_right (by norm_num) (by omega)
    _ = 128 := by norm_num
  have h2kpos : 0 < 2 ^ k := Nat.pos_pow_of_pos k (by norm_num)
  have hdle : 2 ^ k * byteWeight i ≤ 32768 := by
    calc 2 ^ k * byteWeight i ≤ 128 * 256 := Nat.mul_le_mul h2k hw.2
    _ = 32768 := by norm_num
  have hdpos : 0 < 2 ^ k * byteWeight i := Nat.mul_pos h2kpos hw.1
  rcases hcase with hdown | hup
  · -- bit was set: flipped byte is smaller, sum decreases
    have hs : sum32 l =
        sum32 (l.set i (l.getD i 0 ^^^ 2 ^ k)) + 2 ^ k * byteWeight i := by
      have hexp : l.getD i 0 * byteWeight i =
          (l.getD i 0 ^^^ 2 ^ k) * byteWeight i + 2 ^ k * byteWeight i := by
        rw [← Nat.add_mul, hdown]
      omega
    exact fun h => checksum16_ne_of_sum_lt _ _ _ hdpos (by omega) hs h.symm
  · -- bit was clear: flipped byte is larger, sum increases
    have hs : sum32 (l.set i (l.getD i 0 ^^^ 2 ^ k)) =
        sum32 l + 2 ^ k * byteWeight i := by
      have hexp : (l.getD i 0 ^^^ 2 ^ k) * byteWeight i =
          l.getD i 0 * byteWeight i + 2 ^ k * byteWeight i := by
        rw [← Nat.add_mul, ← hup]
      omega
    exact checksum16_ne_of_sum_lt _ _ _ hdpos (by omega) hs

theorem getD_set_ne (l : List Nat) (i j v : Nat) (h : i ≠ j) :
    (l.set i v).getD j 0 = l.getD j 0 := by
  simp only [List.getD_eq_getElem?_getD, List.getElem?_set_ne h]

theorem getD_set_self (l : List Nat) (i v : Nat) (h : i < l.length) :
    (l.set i v).getD i 0 = v := by
  simp only [List.getD_eq_getElem?_getD, List.getElem?_set_self h,
    Option.getD_some]

theorem set_append_left (A B : List Nat) (i v : Nat) (h : i < A.length) :
    (A ++ B).set i v = A.set i v ++ B := by
  rw [List.set_append, if_pos h]

theorem set_append_right (A B : List Nat) (i v : Nat) (h : A.length ≤ i) :
    (A ++ B).set i v = A ++ B.set (i - A.length) v := by
  rw [List.set_append, if_neg (by omega)]

theorem getD_padEven (l : List Nat) (i : Nat) (h : i < l.length) :
    (padEven l).getD i 0 = l.getD i 0 := by
  simp only [padEven]
  split
  · exact List.getD_append _ _ _ _ h
  · rfl

theorem padEven_set (l : List Nat) (i v : Nat) (h : i < l.length) :
    padEven (l.set i v) = (padEven l).set i v := by
  simp only [padEven, List.length_set]
  split
  · rw [set_append_left _ _ _ _ (by simpa using h)]
  · rfl

theorem bytes_wf_append (A B : List Nat) (hA : bytes_wf A) (hB : bytes_wf B) :
    bytes_wf (A ++ B) := by
  intro b hb
  rcases List.mem_append.mp hb with h | h
  · exact hA b h
  · exact hB b h

theorem bytes_wf_store16LE (v : Nat) : bytes_wf (store16LE v) := by
  intro b hb
  simp only [store16LE, List.mem_cons, List.not_mem_nil, or_false] at hb
  rcases hb with rfl | rfl <;> omega

theorem bytes_wf_udp_hdr_bytes (sp dp len ck : Nat) :
    bytes_wf (udp_hdr_bytes sp dp len ck) := by
  refine bytes_wf_append _ _ ?_ (bytes_wf_store16LE _)
  refine bytes_wf_append _ _ ?_ (bytes_wf_store16LE _)
  exact bytes_wf_append _ _ (bytes_wf_store16LE _) (bytes_wf_store16LE _)

theorem bytes_wf_set (l : List Nat) (i v : Nat) (hl : bytes_wf l)
    (hv : v < 256) : bytes_wf (l.set i v) := by
  intro b hb
  rcases List.mem_or_eq_of_mem_set hb with h | rfl
  · exact hl b h
  · exact hv

theorem bytes_wf_write16 (l : List Nat) (off v : Nat) (hl : bytes_wf l) :
    bytes_wf (write16 l off v) := by
  refine bytes_wf_set _ _ _ (bytes_wf_set _ _ _ hl (by omega)) (by omega)

/-- Reading the checksum field of a constructed UDP header. -/
theorem read16_udp_hdr_bytes_6 (sp dp len ck : Nat) (D : List Nat)
    (hck : ck < 65536) :
    read16 (udp_hdr_bytes sp dp len ck ++ D) 6 = ck := by
  simp [udp_hdr_bytes, store16LE, read16]
  omega

/-- Zeroing the checksum field of a constructed UDP header. -/
theorem write16_udp_hdr_bytes_6 (sp dp len ck : Nat) (D : List Nat) :
    write16 (udp_hdr_bytes sp dp len ck ++ D) 6 0 =
      udp_hdr_bytes sp dp len 0 ++ D := by
  simp [udp_hdr_bytes, store16LE, write16]

theorem map_get_set_self (t : List (Nat × Nat)) (p h : Nat) :
    map_get (map_set t p h) p = some h := by
  induction t with
  | nil => simp [map_set, map_get]
  | cons e rest ih =>
    by_cases hp : e.1 = p
    · simp [map_set, hp, map_get]
    · simp [map_set, hp, map_get, ih]

theorem map_get_eq_none_of_not_mem (t : List (Nat × Nat)) (p : Nat)
    (h : p ∉ t.map Prod.fst) : map_get t p = none := by
  induction t with
  | nil => rfl
  | cons e rest ih =>
    simp only [List.map_cons, List.mem_cons, not_or] at h
    simp only [map_get, if_neg (show ¬ e.1 = p from fun he => h.1 he.symm)]
    exact ih h.2

theorem map_get_delete_self (t : List (Nat × Nat)) (p : Nat)
    (hnodup : (t.map Prod.fst).Nodup) :
    map_get (map_delete t p) p = none := by
  induction t with
  | nil => rfl
  | cons e rest ih =>
    simp only [List.map_cons, List.nodup_cons] at hnodup
    by_cases hp : e.1 = p
    · simp only [map_delete, if_pos hp]
      refine map_get_eq_none_of_not_mem rest p ?_
      rw [← hp]
      exact hnodup.1
    · simp only [map_delete, if_neg hp, map_get, if_neg hp]
      exact ih hnodup.2

theorem map_delete_absent (t : List (Nat × Nat)) (p : Nat)
    (habs : map_get t p = none) : map_delete t p = t := by
  induction t with
  | nil => rfl
  | cons e rest ih =>
    by_cases hp : e.1 = p
    · simp [map_get, hp] at habs
    · simp only [map_get, if_neg hp] at habs
      simp [map_delete, if_neg hp, ih habs]

/-- Big-endian layout of the constructed UDP header fields (ports and length
below `2^16`); the checksum value is stored without byte-swapping. -/
theorem udp_hdr_bytes_be (sp dp len ck : Nat) (hsp : sp < 65536)
    (hdp : dp < 65536) (hlen : len < 65536) :
    udp_hdr_bytes sp dp len ck =
      [sp / 256, sp % 256, dp / 256, dp % 256, len / 256, len % 256,
       ck % 256, ck / 256 % 256] := by
  have e1 : sp / 256 % 256 = sp / 256 := Nat.mod_eq_of_lt (by omega)
  have e2 : dp / 256 % 256 = dp / 256 := Nat.mod_eq_of_lt (by omega)
  have e3 : len / 256 % 256 = len / 256 := Nat.mod_eq_of_lt (by omega)
  rw [udp_hdr_bytes, store16LE_swap16 sp, store16LE_swap16 dp,
    store16LE_swap16 len]
  simp [store16LE, e1, e2, e3]

/-- C2: Checksum purity — for every buffer with sufficient head-room and
tail capacity and every source/destination IP pair, `udp_checksum` returns
with the buffer's length and entire observable byte content (head-room
bytes included) exactly equal to their values on entry: the synthesized
pseudo-header, the saved-and-restored head-room bytes, and any temporary
padding byte leave no trace. -/
theorem C2_checksum_purity (buf : buf_t) (sip dip : List Nat)
    (hH : 20 ≤ buf.headroom.length) (hT : 1 ≤ buf.tailcap)
    (hsip : sip.length = 4) (hdip : dip.length = 4) :
    ∃ ck, udp_checksum buf sip dip = some (ck, buf) := by
  obtain ⟨H, D, T⟩ := buf
  dsimp only at hH hT
  obtain ⟨H0, H1, hsplit, h1⟩ : ∃ H0 H1, H = H0 ++ H1 ∧ H1.length = 20 :=
    ⟨H.take (H.length - 20), H.drop (H.length - 20),
     (List.take_append_drop _ _).symm, by simp; omega⟩
  subst hsplit
  exact ⟨_, udp_checksum_spec H0 H1 D T sip dip h1 hsip hdip (fun _ => hT)⟩

/-- Witness for C2 at a concrete buffer and IP pair. -/
theorem C2_checksum_purity_witness :
    ∃ ck, udp_checksum ⟨List.replicate 20 7, [1, 2, 3], 1⟩ [10, 0, 0, 1]
        [10, 0, 0, 2] = some (ck, ⟨List.replicate 20 7, [1, 2, 3], 1⟩) :=
  C2_checksum_purity ⟨List.replicate 20 7, [1, 2, 3], 1⟩ [10, 0, 0, 1]
    [10, 0, 0, 2] (by decide) (by decide) (by decide) (by decide)

/-- C6: Registry round-trips — `open` then lookup yields the handler;
`close` then lookup yields none (on a registry satisfying the per-port
uniqueness invariant); `close` on an absent port is a no-op that signals no
failure; opening an already-used port overwrites the previous handler (last
write wins); and `open` reports success. -/
theorem C6_registry_roundtrip (t : List (Nat × Nat)) (p h g : Nat)
    (hnodup : (t.map Prod.fst).Nodup) :
    map_get (udp_open t p h).2 p = some h ∧
    map_get (udp_close t p) p = none ∧
    (map_get t p = none → udp_close t p = t) ∧
    map_get (udp_open (udp_open t p h).2 p g).2 p = some g ∧
    (udp_open t p h).1 = 0 :=
  ⟨map_get_set_self t p h, map_get_delete_self t p hnodup,
   map_delete_absent t p, map_get_set_self _ p g, rfl⟩

/-- Witness for C6 at a concrete registry. -/
theorem C6_registry_roundtrip_witness :
    map_get (udp_open [(80, 1)] 53 7).2 53 = some 7 ∧
    map_get (udp_close [(80, 1)] 53) 53 = none ∧
    (map_get [(80, 1)] 53 = none → udp_close [(80, 1)] 53 = [(80, 1)]) ∧
    map_get (udp_open (udp_open [(80, 1)] 53 7).2 53 9).2 53 = some 9 ∧
    (udp_open [(80, 1)] 53 7).1 = 0 :=
  C6_registry_roundtrip [(80, 1)] 53 7 9 (by decide)

/-- C7: Outbound construction — `udp_out` prepends exactly 8 bytes holding
the source and destination ports and the total length `8 + payload length`
in big-endian, with the checksum field zero while the Checksum Engine runs
(over the pseudo-header built from the local interface IP and the given
destination IP) and afterwards holding the engine's value; the completed
buffer is handed to the network layer tagged with the UDP protocol
identifier and the destination IP. -/
theorem C7_udp_out_construction (H0 H1 H2 D : List Nat) (T sp dp : Nat)
    (dip ifip : List Nat) (h1 : H1.length = 20) (h2 : H2.length = 8)
    (hdip : dip.length = 4) (hifip : ifip.length = 4)
    (hT : D.length % 2 = 1 → 1 ≤ T) (hsp : sp < 65536) (hdp : dp < 65536)
    (hlen : D.length + 8 < 65536) :
    ∃ ck,
      udp_out ⟨H0 ++ H1 ++ H2, D, T⟩ sp dip dp ifip =
        some ⟨⟨H0 ++ H1, udp_hdr_bytes sp dp (D.length + 8) ck ++ D, T⟩,
              dip, NET_PROTOCOL_UDP⟩ ∧
      ck = checksum16 (padEven (udp_peso_hdr ifip dip (D.length + 8) ++
             (udp_hdr_bytes sp dp (D.length + 8) 0 ++ D))) ∧
      udp_hdr_bytes sp dp (D.length + 8) ck =
        [sp / 256, sp % 256, dp / 256, dp % 256,
         (D.length + 8) / 256, (D.length + 8) % 256,
         ck % 256, ck / 256 % 256] :=
  ⟨_, udp_out_spec H0 H1 H2 D T sp dp dip ifip h1 h2 hdip hifip hT, rfl,
   udp_hdr_bytes_be sp dp (D.length + 8) _ hsp hdp hlen⟩

/-- Witness for C7 at a concrete payload and parameters. -/
theorem C7_udp_out_construction_witness :
    ∃ ck,
      udp_out ⟨List.replicate 0 0 ++ List.replicate 20 3 ++ List.replicate 8 4,
               [104, 105], 0⟩ 12345 [10, 0, 0, 2] 53 [10, 0, 0, 1] =
        some ⟨⟨List.replicate 0 0 ++ List.replicate 20 3,
               udp_hdr_bytes 12345 53 ([104, 105].length + 8) ck ++ [104, 105],
               0⟩, [10, 0, 0, 2], NET_PROTOCOL_UDP⟩ ∧
      ck = checksum16 (padEven
             (udp_peso_hdr [10, 0, 0, 1] [10, 0, 0, 2] ([104, 105].length + 8) ++
              (udp_hdr_bytes 12345 53 ([104, 105].length + 8) 0 ++ [104, 105]))) ∧
      udp_hdr_bytes 12345 53 ([104, 105].length + 8) ck =
        [12345 / 256, 12345 % 256, 53 / 256, 53 % 256,
         ([104, 105].length + 8) / 256, ([104, 105].length + 8) % 256,
         ck % 256, ck / 256 % 256] :=
  C7_udp_out_construction (List.replicate 0 0) (List.replicate 20 3)
    (List.replicate 8 4) [104, 105] 0 12345 53 [10, 0, 0, 2] [10, 0, 0, 1]
    (by decide) (by decide) (by decide) (by decide) (by decide) (by decide)
    (by decide) (by decide)

/-- C8: No zero-checksum sentinel — `udp_checksum` returns the raw
one's-complement `checksum16` result of the assembled region unchanged for
every input, and a computed checksum of exactly `0x0000` is returned as `0`
(never remapped to `0xFFFF`); `udp_out` then transmits the all-zero
checksum field bytes. -/
theorem C8_no_zero_sentinel :
    (∀ (H0 H1 D : List Nat) (T : Nat) (sip dip : List Nat),
      H1.length = 20 → sip.length = 4 → dip.length = 4 →
      (D.length % 2 = 1 → 1 ≤ T) →
      udp_checksum ⟨H0 ++ H1, D, T⟩ sip dip =
        some (checksum16 (padEven (udp_peso_hdr sip dip D.length ++ D)),
              ⟨H0 ++ H1, D, T⟩)) ∧
    udp_checksum ⟨List.replicate 20 0, [0, 0, 0, 0, 0, 10, 0, 0, 255, 218], 0⟩
        [0, 0, 0, 0] [0, 0, 0, 0] =
      some (0,
        ⟨List.replicate 20 0, [0, 0, 0, 0, 0, 10, 0, 0, 255, 218], 0⟩) ∧
    (udp_out ⟨List.replicate 28 0, [255, 218], 0⟩ 0 [0, 0, 0, 0] 0
        [0, 0, 0, 0]).map (fun c => c.buf.data) =
      some [0, 0, 0, 0, 0, 10, 0, 0, 255, 218] :=
  ⟨fun H0 H1 D T sip dip h1 hs hd hT =>
    udp_checksum_spec H0 H1 D T sip dip h1 hs hd hT,
   by decide, by decide⟩

/-- Witness for the universally quantified part of C8 at a concrete
buffer. -/
theorem C8_no_zero_sentinel_witness :
    udp_checksum ⟨[] ++ List.replicate 20 9, [1, 2, 3, 4, 5, 6, 7, 8], 0⟩
        [1, 2, 3, 4] [5, 6, 7, 8] =
      some (checksum16 (padEven
              (udp_peso_hdr [1, 2, 3, 4] [5, 6, 7, 8]
                 ([1, 2, 3, 4, 5, 6, 7, 8] : List Nat).length ++
               [1, 2, 3, 4, 5, 6, 7, 8])),
            ⟨[] ++ List.replicate 20 9, [1, 2, 3, 4, 5, 6, 7, 8], 0⟩) :=
  C8_no_zero_sentinel.1 [] (List.replicate 20 9) [1, 2, 3, 4, 5, 6, 7, 8] 0
    [1, 2, 3, 4] [5, 6, 7, 8] (by decide) (by decide) (by decide) (by decide)

/-- C4: Silent drop of invalid datagrams — for every inbound buffer that is
shorter than the 8-byte UDP header, or whose recomputed checksum differs
from the transmitted checksum value, `handle_inbound` returns without
invoking any registered handler and without emitting any unreachable
notification. -/
theorem C4_silent_drop (table : List (Nat × Nat))
    (ifip sip H0 H1 D : List Nat) (T : Nat) (h1 : H1.length = 20)
    (hsip : sip.length = 4) (hifip : ifip.length = 4)
    (hT : D.length % 2 = 1 → 1 ≤ T) :
    (D.length < 8 →
      udp_in table ifip ⟨H0 ++ H1, D, T⟩ sip =
        some ⟨none, none, ⟨H0 ++ H1, D, T⟩⟩) ∧
    (8 ≤ D.length →
      read16 D 6 ≠
        checksum16 (padEven (udp_peso_hdr sip ifip D.length ++ write16 D 6 0)) →
      ∃ b, udp_in table ifip ⟨H0 ++ H1, D, T⟩ sip = some ⟨none, none, b⟩) := by
  constructor
  · intro hshort
    rw [udp_in]
    rw [if_pos (by dsimp only; omega)]
  · intro hlen hne
    exact ⟨_, udp_in_drop_checksum table ifip sip H0 H1 D T h1 hsip hifip hlen
      hT hne⟩

/-- Witness for C4: a 3-byte buffer is dropped silently, and an 8-byte
buffer with a failing checksum is dropped silently. -/
theorem C4_silent_drop_witness :
    udp_in [(53, 7)] [10, 0, 0, 2] ⟨[] ++ List.replicate 20 1, [1, 2, 3], 1⟩
        [10, 0, 0, 1] =
      some ⟨none, none, ⟨[] ++ List.replicate 20 1, [1, 2, 3], 1⟩⟩ ∧
    ∃ b, udp_in [(53, 7)] [10, 0, 0, 2]
        ⟨[] ++ List.replicate 20 1, [1, 2, 3, 4, 5, 6, 7, 8], 1⟩
        [10, 0, 0, 1] = some ⟨none, none, b⟩ :=
  ⟨(C4_silent_drop [(53, 7)] [10, 0, 0, 2] [10, 0, 0, 1] [] _ [1, 2, 3] 1
      (by decide) (by decide) (by decide) (by decide)).1 (by decide),
   (C4_silent_drop [(53, 7)] [10, 0, 0, 2] [10, 0, 0, 1] [] _
      [1, 2, 3, 4, 5, 6, 7, 8] 1 (by decide) (by decide) (by decide)
      (by decide)).2 (by decide) (by decide)⟩

/-- C9: No atomicity on checksum failure — when the checksum verification
fails on a buffer of length at least 8, `handle_inbound` returns with the
header's checksum field still zeroed (the transmitted value is restored
only on the success path), so a dropped datagram whose transmitted checksum
field was nonzero is not returned in its original byte-for-byte state. -/
theorem C9_checksum_field_zeroed (table : List (Nat × Nat))
    (ifip sip H0 H1 D : List Nat) (T : Nat) (h1 : H1.length = 20)
    (hsip : sip.length = 4) (hifip : ifip.length = 4) (hD : 8 ≤ D.length)
    (hT : D.length % 2 = 1 → 1 ≤ T)
    (hne : read16 D 6 ≠
      checksum16 (padEven (udp_peso_hdr sip ifip D.length ++ write16 D 6 0))) :
    udp_in table ifip ⟨H0 ++ H1, D, T⟩ sip =
      some ⟨none, none, ⟨H0 ++ H1, write16 D 6 0, T⟩⟩ ∧
    read16 (write16 D 6 0) 6 = 0 ∧
    (read16 D 6 ≠ 0 → write16 D 6 0 ≠ D) := by
  have hz : read16 (write16 D 6 0) 6 = 0 := by
    simp only [write16, read16, Nat.zero_mod, Nat.zero_div]
    rw [getD_set_self _ 7 _ (by simp; omega),
      getD_set_ne _ 7 6 _ (by omega), getD_set_self _ 6 _ (by omega)]
  refine ⟨udp_in_drop_checksum table ifip sip H0 H1 D T h1 hsip hifip hD hT hne,
    hz, fun hnz heqD => hnz ?_⟩
  rw [← heqD]
  exact hz

/-- Witness for C9: a concrete failing datagram whose checksum field is
nonzero comes back with the field zeroed. -/
theorem C9_checksum_field_zeroed_witness :
    udp_in [] [10, 0, 0, 2] ⟨[] ++ List.replicate 20 1,
        [1, 2, 3, 4, 5, 6, 7, 8], 1⟩ [10, 0, 0, 1] =
      some ⟨none, none, ⟨[] ++ List.replicate 20 1,
            write16 [1, 2, 3, 4, 5, 6, 7, 8] 6 0, 1⟩⟩ ∧
    read16 (write16 [1, 2, 3, 4, 5, 6, 7, 8] 6 0) 6 = 0 ∧
    (read16 [1, 2, 3, 4, 5, 6, 7, 8] 6 ≠ 0 →
      write16 [1, 2, 3, 4, 5, 6, 7, 8] 6 0 ≠ [1, 2, 3, 4, 5, 6, 7, 8]) :=
  C9_checksum_field_zeroed [] [10, 0, 0, 2] [10, 0, 0, 1] []
    (List.replicate 20 1) [1, 2, 3, 4, 5, 6, 7, 8] 1 (by decide) (by decide)
    (by decide) (by decide) (by decide) (by decide)

/-- C5: Unreachable-port path — a well-formed inbound datagram that passes
the checksum check and whose destination port has no registered handler
makes `handle_inbound` re-add the preceding 20-byte network header to the
buffer, request exactly one unreachable notification tagged with the
port-unreachable reason code and addressed to the sender's IP, and invoke
no handler. -/
theorem C5_unreachable_port (table : List (Nat × Nat))
    (ifip sip H0 H1 D : List Nat) (T : Nat) (h1 : H1.length = 20)
    (hsip : sip.length = 4) (hifip : ifip.length = 4) (hD : 8 ≤ D.length)
    (hT : D.length % 2 = 1 → 1 ≤ T) (hwf : bytes_wf D)
    (heq : read16 D 6 =
      checksum16 (padEven (udp_peso_hdr sip ifip D.length ++ write16 D 6 0)))
    (hlookup : map_get table (swap16 (read16 D 2)) = none) :
    udp_in table ifip ⟨H0 ++ H1, D, T⟩ sip =
      some ⟨none, some ⟨⟨H0, H1 ++ D, T⟩, sip, ICMP_CODE_PORT_UNREACH⟩,
            ⟨H0, H1 ++ D, T⟩⟩ :=
  udp_in_unreachable table ifip sip H0 H1 D T h1 hsip hifip hD hT hwf heq
    hlookup

/-- Witness for C5: a valid datagram to port 53 with an empty registry. -/
theorem C5_unreachable_port_witness :
    udp_in [] [10, 0, 0, 2] ⟨[] ++ List.replicate 20 1,
        [48, 57, 0, 53, 0, 10, 83, 0, 104, 105], 1⟩ [10, 0, 0, 1] =
      some ⟨none,
            some ⟨⟨[], List.replicate 20 1 ++
                       [48, 57, 0, 53, 0, 10, 83, 0, 104, 105], 1⟩,
                  [10, 0, 0, 1], ICMP_CODE_PORT_UNREACH⟩,
            ⟨[], List.replicate 20 1 ++
                 [48, 57, 0, 53, 0, 10, 83, 0, 104, 105], 1⟩⟩ :=
  C5_unreachable_port [] [10, 0, 0, 2] [10, 0, 0, 1] [] (List.replicate 20 1)
    [48, 57, 0, 53, 0, 10, 83, 0, 104, 105] 1 (by decide) (by decide)
    (by decide) (by decide) (by decide) (by decide) (by decide) (by decide)

/-- C10: Length field ignored on receive — for every buffer of length at
least 8 that passes the checksum check and has a registered handler, the
handler is invoked with payload length equal to the buffer length minus 8,
regardless of the value stored in the header's 16-bit length field (no
hypothesis constrains that field). -/
theorem C10_length_field_ignored (table : List (Nat × Nat))
    (ifip sip H0 H1 D : List Nat) (T handler : Nat) (h1 : H1.length = 20)
    (hsip : sip.length = 4) (hifip : ifip.length = 4) (hD : 8 ≤ D.length)
    (hT : D.length % 2 = 1 → 1 ≤ T) (hwf : bytes_wf D)
    (heq : read16 D 6 =
      checksum16 (padEven (udp_peso_hdr sip ifip D.length ++ write16 D 6 0)))
    (hlookup : map_get table (swap16 (read16 D 2)) = some handler) :
    ∃ out, udp_in table ifip ⟨H0 ++ H1, D, T⟩ sip = some out ∧
      out.handler_call =
        some ⟨handler, D.drop 8, D.length - 8, sip, read16 D 0⟩ := by
  refine ⟨_, udp_in_deliver table ifip sip H0 H1 D T handler h1 hsip hifip hD
    hT hwf heq hlookup, ?_⟩
  simp [List.length_drop]

/-- Witness for C10: a checksum-valid datagram whose length field holds the
bogus value `0xDEAD` is still delivered with the true payload length 2. -/
theorem C10_length_field_ignored_witness :
    ∃ out, udp_in [(53, 7)] [10, 0, 0, 2] ⟨[] ++ List.replicate 20 1,
        [48, 57, 0, 53, 222, 173, 116, 92, 104, 105], 1⟩ [10, 0, 0, 1] =
      some out ∧
      out.handler_call = some ⟨7, [104, 105],
        ([48, 57, 0, 53, 222, 173, 116, 92, 104, 105] : List Nat).length - 8,
        [10, 0, 0, 1],
        read16 [48, 57, 0, 53, 222, 173, 116, 92, 104, 105] 0⟩ :=
  C10_length_field_ignored [(53, 7)] [10, 0, 0, 2] [10, 0, 0, 1] []
    (List.replicate 20 1) [48, 57, 0, 53, 222, 173, 116, 92, 104, 105] 1 7
    (by decide) (by decide) (by decide) (by decide) (by decide) (by decide)
    (by decide) (by decide)

theorem swap16_lt (x : Nat) : swap16 x < 65536 := by
  simp only [swap16]
  omega

theorem swap16_swap16 (x : Nat) (h : x < 65536) : swap16 (swap16 x) = x := by
  obtain ⟨a, b, ha, hb, hv1, hv2⟩ :
      ∃ a b, a < 256 ∧ b < 256 ∧ x % 256 = a ∧ x / 256 = b :=
    ⟨_, _, Nat.mod_lt _ (by norm_num), by omega, rfl, rfl⟩
  have hx : x = 256 * b + a := by omega
  have hm : b % 256 = b := Nat.mod_eq_of_lt hb
  simp only [swap16, hv1, hv2, hm]
  have h1 : (a * 256 + b) % 256 = b := by omega
  have h2 : (a * 256 + b) / 256 = a := by
    rw [Nat.mul_comm a 256, Nat.mul_add_div (by norm_num), Nat.div_eq_of_lt hb,
      Nat.add_zero]
  rw [h1, h2, Nat.mod_eq_of_lt ha]
  omega

theorem read16_pair (v : Nat) (h : v < 65536) :
    v % 256 + 256 * (v / 256 % 256) = v := by
  omega

/-- Reading the source-port field of a constructed UDP header. -/
theorem read16_udp_hdr_bytes_0 (sp dp len ck : Nat) (D : List Nat) :
    read16 (udp_hdr_bytes sp dp len ck ++ D) 0 = swap16 sp := by
  have h := read16_pair (swap16 sp) (swap16_lt sp)
  simp [udp_hdr_bytes, store16LE, read16]
  omega

/-- Reading the destination-port field of a constructed UDP header. -/
theorem read16_udp_hdr_bytes_2 (sp dp len ck : Nat) (D : List Nat) :
    read16 (udp_hdr_bytes sp dp len ck ++ D) 2 = swap16 dp := by
  have h := read16_pair (swap16 dp) (swap16_lt dp)
  simp [udp_hdr_bytes, store16LE, read16]
  omega

/-- C1 counterexample: with port 53 open, processing the datagram that
`send` built from IP `10.0.0.1` source port 12345 to port 53 with payload
"hi" does invoke the handler with payload `"hi"`, length 2, and sender IP
`10.0.0.1`, but the source-port argument is the raw big-endian field value
`swap16 12345 = 14640`, not the host-order value 12345. -/
theorem C1_src_port_counterexample :
    ∃ c, udp_send (List.replicate 28 0) 2 [104, 105] 12345 [10, 0, 0, 2] 53
          [10, 0, 0, 1] = some c ∧
      ∃ out, udp_in (udp_open [] 53 7).2 [10, 0, 0, 2]
          ⟨List.replicate 20 1, c.buf.data, 1⟩ [10, 0, 0, 1] = some out ∧
        out.handler_call = some ⟨7, [104, 105], 2, [10, 0, 0, 1], 14640⟩ ∧
        ∀ hc, out.handler_call = some hc → hc.src_port ≠ 12345 := by
  refine ⟨⟨⟨List.replicate 20 0, [48, 57, 0, 53, 0, 10, 83, 0, 104, 105], 2⟩,
    [10, 0, 0, 2], 17⟩, by decide, ?_⟩
  refine ⟨⟨some ⟨7, [104, 105], 2, [10, 0, 0, 1], 14640⟩, none,
    ⟨List.replicate 20 1 ++ [48, 57, 0, 53, 0, 10, 83, 0], [104, 105], 1⟩⟩,
    by decide, by decide, by decide⟩

/-- C1 (amended): end-to-end delivery — for every registered port, building
a datagram with `send` on a stack whose interface IP is the sender's and
processing it with `handle_inbound` on the destination stack invokes the
registered handler exactly once with the datagram's payload, its byte
length, the sender's IP — and the sender's source port as the raw
big-endian wire field (numeric value `swap16 src_port` on the little-endian
host), not converted to host order. -/
theorem C1_end_to_end_delivery (table : List (Nat × Nat))
    (H0 H1 H2 G0 G1 D : List Nat) (T T2 sp dp handler : Nat)
    (sip dip : List Nat) (h1 : H1.length = 20) (h2 : H2.length = 8)
    (hg1 : G1.length = 20) (hsip : sip.length = 4) (hdip : dip.length = 4)
    (hwf : bytes_wf D) (hdp : dp < 65536)
    (hT : D.length % 2 = 1 → 1 ≤ T) (hT2 : D.length % 2 = 1 → 1 ≤ T2)
    (hlookup : map_get table dp = some handler) :
    ∃ c, udp_send (H0 ++ H1 ++ H2) T D sp dip dp sip = some c ∧
      ∃ out, udp_in table dip ⟨G0 ++ G1, c.buf.data, T2⟩ sip = some out ∧
        out.handler_call = some ⟨handler, D, D.length, sip, swap16 sp⟩ ∧
        out.icmp_call = none := by
  refine ⟨⟨⟨H0 ++ H1, udp_hdr_bytes sp dp (D.length + 8)
      (checksum16 (padEven (udp_peso_hdr sip dip (D.length + 8) ++
        (udp_hdr_bytes sp dp (D.length + 8) 0 ++ D)))) ++ D, T⟩,
      dip, NET_PROTOCOL_UDP⟩,
    udp_out_spec H0 H1 H2 D T sp dp dip sip h1 h2 hdip hsip hT, ?_⟩
  have hcklt : checksum16 (padEven (udp_peso_hdr sip dip (D.length + 8) ++
      (udp_hdr_bytes sp dp (D.length + 8) 0 ++ D))) < 65536 := by
    have := checksum16_le (padEven (udp_peso_hdr sip dip (D.length + 8) ++
      (udp_hdr_bytes sp dp (D.length + 8) 0 ++ D)))
    omega
  have hXlen : (udp_hdr_bytes sp dp (D.length + 8)
      (checksum16 (padEven (udp_peso_hdr sip dip (D.length + 8) ++
        (udp_hdr_bytes sp dp (D.length + 8) 0 ++ D)))) ++ D).length =
      D.length + 8 := by
    simp [length_udp_hdr_bytes]
    omega
  have hwfX : bytes_wf (udp_hdr_bytes sp dp (D.length + 8)
      (checksum16 (padEven (udp_peso_hdr sip dip (D.length + 8) ++
        (udp_hdr_bytes sp dp (D.length + 8) 0 ++ D)))) ++ D) :=
    bytes_wf_append _ _ (bytes_wf_udp_hdr_bytes _ _ _ _) hwf
  have heq : read16 (udp_hdr_bytes sp dp (D.length + 8)
      (checksum16 (padEven (udp_peso_hdr sip dip (D.length + 8) ++
        (udp_hdr_bytes sp dp (D.length + 8) 0 ++ D)))) ++ D) 6 =
      checksum16 (padEven (udp_peso_hdr sip dip (udp_hdr_bytes sp dp
          (D.length + 8) (checksum16 (padEven (udp_peso_hdr sip dip
            (D.length + 8) ++ (udp_hdr_bytes sp dp (D.length + 8) 0 ++ D)))) ++
            D).length ++
        write16 (udp_hdr_bytes sp dp (D.length + 8)
          (checksum16 (padEven (udp_peso_hdr sip dip (D.length + 8) ++
            (udp_hdr_bytes sp dp (D.length + 8) 0 ++ D)))) ++ D) 6 0)) := by
    rw [hXlen, write16_udp_hdr_bytes_6,
      read16_udp_hdr_bytes_6 _ _ _ _ _ hcklt]
  have hlookup2 : map_get table (swap16 (read16 (udp_hdr_bytes sp dp
      (D.length + 8) (checksum16 (padEven (udp_peso_hdr sip dip
        (D.length + 8) ++ (udp_hdr_bytes sp dp (D.length + 8) 0 ++ D)))) ++ D)
      2)) = some handler := by
    rw [read16_udp_hdr_bytes_2, swap16_swap16 dp hdp]
    exact hlookup
  have hdel := udp_in_deliver table dip sip G0 G1
    (udp_hdr_bytes sp dp (D.length + 8)
      (checksum16 (padEven (udp_peso_hdr sip dip (D.length + 8) ++
        (udp_hdr_bytes sp dp (D.length + 8) 0 ++ D)))) ++ D) T2 handler hg1
    hsip hdip (by omega) (by rw [hXlen]; intro h; exact hT2 (by omega)) hwfX
    heq hlookup2
  refine ⟨_, hdel, ?_, rfl⟩
  have hdrop : (udp_hdr_bytes sp dp (D.length + 8)
      (checksum16 (padEven (udp_peso_hdr sip dip (D.length + 8) ++
        (udp_hdr_bytes sp dp (D.length + 8) 0 ++ D)))) ++ D).drop 8 = D :=
    List.drop_left' (length_udp_hdr_bytes _ _ _ _)
  simp only [hdrop, read16_udp_hdr_bytes_0]

/-- Witness for the amended C1 at the concrete scenario of the spec
(`open(53, h)`, payload "hi", source port 12345). -/
theorem C1_end_to_end_delivery_witness :
    ∃ c, udp_send ([] ++ List.replicate 20 3 ++ List.replicate 8 4) 0
        [104, 105] 12345 [10, 0, 0, 2] 53 [10, 0, 0, 1] = some c ∧
      ∃ out, udp_in (udp_open [] 53 7).2 [10, 0, 0, 2]
          ⟨[] ++ List.replicate 20 1, c.buf.data, 0⟩ [10, 0, 0, 1] =
            some out ∧
        out.handler_call =
          some ⟨7, [104, 105], ([104, 105] : List Nat).length, [10, 0, 0, 1],
                swap16 12345⟩ ∧
        out.icmp_call = none :=
  C1_end_to_end_delivery (udp_open [] 53 7).2 [] (List.replicate 20 3)
    (List.replicate 8 4) [] (List.replicate 20 1) [104, 105] 0 0 12345 53 7
    [10, 0, 0, 1] [10, 0, 0, 2] (by decide) (by decide) (by decide)
    (by decide) (by decide) (by decide) (by decide) (by decide) (by decide)
    (by decide)

theorem length_padEven_ge (l : List Nat) : l.length ≤ (padEven l).length := by
  simp only [padEven]
  split <;> simp

theorem getD_write16_ne (l : List Nat) (i : Nat) (h6 : i ≠ 6) (h7 : i ≠ 7) :
    (write16 l 6 0).getD i 0 = l.getD i 0 := by
  simp only [write16]
  rw [getD_set_ne _ 7 i _ (by omega), getD_set_ne _ 6 i _ (fun he => h6 he.symm)]

/-- Flipping any single bit of a checksum-valid inbound buffer makes
`udp_in` drop the datagram silently with no handler call and no
notification. -/
theorem udp_in_flip_drop (table : List (Nat × Nat))
    (ifip sip G0 G1 X : List Nat) (T2 i k : Nat) (hg1 : G1.length = 20)
    (hsip : sip.length = 4) (hifip : ifip.length = 4) (hX : 8 ≤ X.length)
    (hT2 : X.length % 2 = 1 → 1 ≤ T2) (hwfX : bytes_wf X)
    (heq : read16 X 6 =
      checksum16 (padEven (udp_peso_hdr sip ifip X.length ++ write16 X 6 0)))
    (hi : i < X.length) (hk : k < 8) :
    udp_in table ifip ⟨G0 ++ G1, flipBit X i k, T2⟩ sip =
      some ⟨none, none, ⟨G0 ++ G1, write16 (flipBit X i k) 6 0, T2⟩⟩ := by
  have hlen : (flipBit X i k).length = X.length := by simp [flipBit]
  obtain ⟨hvlt, hvcase⟩ :=
    xor_byte_cases (X.getD i 0) (getD_lt_of_wf X i hwfX hi) k hk
  have h2kpos : 0 < 2 ^ k := Nat.pos_pow_of_pos k (by norm_num)
  have hvne : X.getD i 0 ^^^ 2 ^ k ≠ X.getD i 0 := by omega
  refine udp_in_drop_checksum table ifip sip G0 G1 _ T2 hg1 hsip hifip
    (by omega) (by rw [hlen]; exact hT2) ?_
  rw [hlen]
  by_cases h6 : i = 6
  · subst h6
    have hw : write16 (flipBit X 6 k) 6 0 = write16 X 6 0 := by
      simp only [flipBit, write16, List.set_set]
    have hr : read16 (flipBit X 6 k) 6 =
        (X.getD 6 0 ^^^ 2 ^ k) + 256 * X.getD 7 0 := by
      simp only [flipBit, read16]
      rw [getD_set_self _ 6 _ (by omega), getD_set_ne _ 6 7 _ (by omega)]
    rw [hr, hw, ← heq]
    simp only [read16]
    have hx : X.getD (6 + 1) 0 = X.getD 7 0 := by norm_num
    omega
  · by_cases h7 : i = 7
    · subst h7
      have hw : write16 (flipBit X 7 k) 6 0 = write16 X 6 0 := by
        simp only [flipBit, write16]
        rw [List.set_comm _ _ _ (by omega : (7 : Nat) ≠ 6), List.set_set]
      have hr : read16 (flipBit X 7 k) 6 =
          X.getD 6 0 + 256 * (X.getD 7 0 ^^^ 2 ^ k) := by
        simp only [flipBit, read16]
        rw [getD_set_ne _ 7 6 _ (by omega), getD_set_self _ 7 _ (by omega)]
      rw [hr, hw, ← heq]
      simp only [read16]
      have hx : X.getD (6 + 1) 0 = X.getD 7 0 := by norm_num
      omega
    · -- flip outside the checksum field: the recomputed checksum changes
      have hw : write16 (flipBit X i k) 6 0 =
          (write16 X 6 0).set i (X.getD i 0 ^^^ 2 ^ k) := by
        simp only [flipBit, write16]
        rw [List.set_comm _ _ _ (show i ≠ 6 from h6),
          List.set_comm _ _ _ (show i ≠ 7 from h7)]
      have hr : read16 (flipBit X i k) 6 = read16 X 6 := by
        simp only [flipBit, read16]
        rw [getD_set_ne _ i 6 _ h6, getD_set_ne _ i 7 _ h7]
      rw [hr, hw, heq]
      have hpeso : (udp_peso_hdr sip ifip X.length).length = 12 := by
        simp [udp_peso_hdr, store16LE, hsip, hifip]
      have hD0len : (write16 X 6 0).length = X.length := length_write16 X 6 0
      have hplen : (udp_peso_hdr sip ifip X.length ++ write16 X 6 0).length =
          12 + X.length := by
        simp [hpeso, hD0len]
      have happ : (udp_peso_hdr sip ifip X.length ++ write16 X 6 0).set
            (12 + i) (X.getD i 0 ^^^ 2 ^ k) =
          udp_peso_hdr sip ifip X.length ++
            (write16 X 6 0).set i (X.getD i 0 ^^^ 2 ^ k) := by
        rw [set_append_right _ _ _ _ (by rw [hpeso]; omega), hpeso]
        congr 2
        omega
      have hgd : (padEven (udp_peso_hdr sip ifip X.length ++ write16 X 6 0)).getD
            (12 + i) 0 = X.getD i 0 := by
        rw [getD_padEven _ _ (by rw [hplen]; omega),
          List.getD_append_right _ _ _ _ (by rw [hpeso]; omega), hpeso]
        rw [show 12 + i - 12 = i from by omega]
        exact getD_write16_ne X i h6 h7
      have hfinal : padEven (udp_peso_hdr sip ifip X.length ++
            (write16 X 6 0).set i (X.getD i 0 ^^^ 2 ^ k)) =
          flipBit (padEven (udp_peso_hdr sip ifip X.length ++ write16 X 6 0))
            (12 + i) k := by
        rw [← happ, padEven_set _ _ _ (by rw [hplen]; omega), flipBit, hgd]
      rw [hfinal]
      refine (checksum16_flip_ne _ (12 + i) k ?_ hk ?_).symm
      · have := length_padEven_ge (udp_peso_hdr sip ifip X.length ++
          write16 X 6 0)
        omega
      · rw [hgd]
        exact getD_lt_of_wf X i hwfX hi

/-- C3: Checksum soundness round-trip — for all payload byte sequences and
all source/destination IP pairs, building a datagram with `udp_out` on the
sender's stack and immediately processing the produced buffer with
`handle_inbound` on the destination stack passes the checksum verification
(the datagram is delivered or answered, never silently dropped), and
flipping any single bit anywhere in the transmitted buffer causes the
checksum verification to fail (silent drop, no handler, no
notification). -/
theorem C3_checksum_roundtrip (table : List (Nat × Nat))
    (H0 H1 H2 G0 G1 D : List Nat) (T T2 sp dp : Nat) (sip dip : List Nat)
    (h1 : H1.length = 20) (h2 : H2.length = 8) (hg1 : G1.length = 20)
    (hsip : sip.length = 4) (hdip : dip.length = 4) (hwf : bytes_wf D)
    (hT : D.length % 2 = 1 → 1 ≤ T) (hT2 : D.length % 2 = 1 → 1 ≤ T2) :
    ∃ c, udp_out ⟨H0 ++ H1 ++ H2, D, T⟩ sp dip dp sip = some c ∧
      (∃ out, udp_in table dip ⟨G0 ++ G1, c.buf.data, T2⟩ sip = some out ∧
        (out.handler_call ≠ none ∨ out.icmp_call ≠ none)) ∧
      (∀ i, i < c.buf.data.length → ∀ k, k < 8 →
        ∃ r, udp_in table dip ⟨G0 ++ G1, flipBit c.buf.data i k, T2⟩ sip =
            some r ∧ r.handler_call = none ∧ r.icmp_call = none) := by
  refine ⟨⟨⟨H0 ++ H1, udp_hdr_bytes sp dp (D.length + 8)
      (checksum16 (padEven (udp_peso_hdr sip dip (D.length + 8) ++
        (udp_hdr_bytes sp dp (D.length + 8) 0 ++ D)))) ++ D, T⟩, dip, NET_PROTOCOL_UDP⟩,
    udp_out_spec H0 H1 H2 D T sp dp dip sip h1 h2 hdip hsip hT, ?_, ?_⟩
  all_goals
    have hcklt : checksum16 (padEven (udp_peso_hdr sip dip (D.length + 8) ++
        (udp_hdr_bytes sp dp (D.length + 8) 0 ++ D))) < 65536 := by
      have := checksum16_le (padEven (udp_peso_hdr sip dip (D.length + 8) ++
        (udp_hdr_bytes sp dp (D.length + 8) 0 ++ D)))
      omega
    have hXlen : (udp_hdr_bytes sp dp (D.length + 8)
      (checksum16 (padEven (udp_peso_hdr sip dip (D.length + 8) ++
        (udp_hdr_bytes sp dp (D.length + 8) 0 ++ D)))) ++ D).length = D.length + 8 := by
      simp [length_udp_hdr_bytes]
      omega
    have hwfX : bytes_wf (udp_hdr_bytes sp dp (D.length + 8)
      (checksum16 (padEven (udp_peso_hdr sip dip (D.length + 8) ++
        (udp_hdr_bytes sp dp (D.length + 8) 0 ++ D)))) ++ D) :=
      bytes_wf_append _ _ (bytes_wf_udp_hdr_bytes _ _ _ _) hwf
    have heq : read16 (udp_hdr_bytes sp dp (D.length + 8)
      (checksum16 (padEven (udp_peso_hdr sip dip (D.length + 8) ++
        (udp_hdr_bytes sp dp (D.length + 8) 0 ++ D)))) ++ D) 6 =
        checksum16 (padEven (udp_peso_hdr sip dip (udp_hdr_bytes sp dp (D.length + 8)
      (checksum16 (padEven (udp_peso_hdr sip dip (D.length + 8) ++
        (udp_hdr_bytes sp dp (D.length + 8) 0 ++ D)))) ++ D).length ++
          write16 (udp_hdr_bytes sp dp (D.length + 8)
      (checksum16 (padEven (udp_peso_hdr sip dip (D.length + 8) ++
        (udp_hdr_bytes sp dp (D.length + 8) 0 ++ D)))) ++ D) 6 0)) := by
      rw [hXlen, write16_udp_hdr_bytes_6,
        read16_udp_hdr_bytes_6 _ _ _ _ _ hcklt]
  · -- round trip passes the checksum verification
    rcases hmg : map_get table (swap16 (read16 (udp_hdr_bytes sp dp (D.length + 8)
      (checksum16 (padEven (udp_peso_hdr sip dip (D.length + 8) ++
        (udp_hdr_bytes sp dp (D.length + 8) 0 ++ D)))) ++ D) 2)) with _ | handler
    · exact ⟨_, udp_in_unreachable table dip sip G0 G1 (udp_hdr_bytes sp dp (D.length + 8)
      (checksum16 (padEven (udp_peso_hdr sip dip (D.length + 8) ++
        (udp_hdr_bytes sp dp (D.length + 8) 0 ++ D)))) ++ D) T2 hg1 hsip hdip
        (by omega) (by rw [hXlen]; intro h; exact hT2 (by omega)) hwfX heq hmg,
        Or.inr (by simp)⟩
    · exact ⟨_, udp_in_deliver table dip sip G0 G1 (udp_hdr_bytes sp dp (D.length + 8)
      (checksum16 (padEven (udp_peso_hdr sip dip (D.length + 8) ++
        (udp_hdr_bytes sp dp (D.length + 8) 0 ++ D)))) ++ D) T2 handler hg1 hsip
        hdip (by omega) (by rw [hXlen]; intro h; exact hT2 (by omega)) hwfX
        heq hmg, Or.inl (by simp)⟩
  · -- any single bit flip fails the checksum verification
    intro i hi k hk
    dsimp only at hi
    exact ⟨_, udp_in_flip_drop table dip sip G0 G1 (udp_hdr_bytes sp dp (D.length + 8)
      (checksum16 (padEven (udp_peso_hdr sip dip (D.length + 8) ++
        (udp_hdr_bytes sp dp (D.length + 8) 0 ++ D)))) ++ D) T2 i k hg1 hsip hdip
      (by omega) (by rw [hXlen]; intro h; exact hT2 (by omega)) hwfX heq
      (by omega) hk, rfl, rfl⟩

/-- Witness for C3 at the concrete "hi" datagram. -/
theorem C3_checksum_roundtrip_witness :
    ∃ c, udp_out ⟨[] ++ List.replicate 20 3 ++ List.replicate 8 4,
        [104, 105], 0⟩ 12345 [10, 0, 0, 2] 53 [10, 0, 0, 1] = some c ∧
      (∃ out, udp_in [(53, 7)] [10, 0, 0, 2]
          ⟨[] ++ List.replicate 20 1, c.buf.data, 0⟩ [10, 0, 0, 1] =
            some out ∧
        (out.handler_call ≠ none ∨ out.icmp_call ≠ none)) ∧
      (∀ i, i < c.buf.data.length → ∀ k, k < 8 →
        ∃ r, udp_in [(53, 7)] [10, 0, 0, 2]
            ⟨[] ++ List.replicate 20 1, flipBit c.buf.data i k, 0⟩
            [10, 0, 0, 1] = some r ∧
          r.handler_call = none ∧ r.icmp_call = none) :=
  C3_checksum_roundtrip [(53, 7)] [] (List.replicate 20 3)
    (List.replicate 8 4) [] (List.replicate 20 1) [104, 105] 0 0 12345 53
    [10, 0, 0, 1] [10, 0, 0, 2] (by decide) (by decide) (by decide)
    (by decide) (by decide) (by decide) (by decide) (by decide)

end Udp
